import Mathlib

/-!
Verification development for secd-rs: a shallow embedding of `src/vm.rs`
(the SECD virtual machine) and `src/compiler.rs` (the Lisp-to-bytecode
compiler), with theorems settling the behavioural claims about them.

Conventions of the embedding:
* The value stack, the dump and instruction sequences are Lean lists;
  the head of `stack`/`dump` is the top (Rust `Vec::push`/`pop` act on
  the end, `Vec::last` is the top), and the head of `code` is the next
  instruction (Rust consumes it with `remove(0)`).
* The flat environment (`HashMap<String, Rc<Lisp>>` in Rust) is an
  association list with unique keys; `envInsert` overwrites in place,
  `envGet` looks up, `envExtend` folds `envInsert` over the right map,
  matching the observable `HashMap` operations used by the sources.
* Rust `i32` payloads are embedded as the `Int` they denote, and the
  machine's arithmetic on them is fixed-width: `ADD`/`SUB` reduce their
  result with `wrap32`, the two's-complement wrap into the `i32` range.
  Wrapping is Rust's defined overflow behaviour for `m + n` in release
  builds (a debug build panics instead); whenever the result is
  representable the two profiles agree and `wrap32` is the identity.
* Fallible paths are explicit: `VMOut.err` models the `Err` results
  built by `SECD::error`, while `VMOut.crash` models a Rust panic
  (`unwrap` of `None`, out-of-bounds indexing), which is an abort that
  is *not* an error return.  `VMOut.timeout` is the fuel artifact of
  embedding the unbounded `while` loop of `run_`.
-/

namespace Secd

/-- Source position `[usize; 2]` (line, column) carried by every
instruction and AST node. -/
abbrev Info := Nat × Nat

mutual

/-- Modelled from the spec: the runtime value type `Lisp` of `data.rs`
(not under `src/`): Integer, Nil, True, False, Cons pair, argument-packing
List, and Closure (parameter names, body code, captured environment
snapshot).  The `Int` payload carries the value of a Rust `i32`; every
arithmetic step the machine performs on it is fixed-width (`wrap32`). -/
inductive Lisp where
  | Int (n : Int)
  | Nil
  | True
  | False
  | Cons (car cdr : Lisp)
  | List (vals : List Lisp)
  | Closure (names : List String) (body : List CodeOPInfo) (env : List (String × Lisp))

/-- Modelled from the spec: the instruction set `CodeOP` of `data.rs`
(not under `src/`), exactly the opcodes consumed by `vm.rs` and produced
by `compiler.rs`. -/
inductive CodeOP where
  | LET (id : String)
  | LD (id : String)
  | LDC (v : Lisp)
  | LDF (names : List String) (body : List CodeOPInfo)
  | RET
  | AP
  | RAP
  | ARGS (n : Nat)
  | PUTS
  | SEL (t f : List CodeOPInfo)
  | JOIN
  | EQ
  | ADD
  | SUB
  | CONS
  | CAR
  | CDR

/-- Modelled from the spec: an instruction together with the source
position of the AST node that produced it (`CodeOPInfo` of `data.rs`). -/
inductive CodeOPInfo where
  | mk (info : Info) (op : CodeOP)

end

/-- An instruction sequence. -/
abbrev Code := List CodeOPInfo

/-- The flat environment map. -/
abbrev Env := List (String × Lisp)

/-- The recorded source position of an instruction. -/
def CodeOPInfo.info : CodeOPInfo → Info
  | .mk i _ => i

/-- The operation of an instruction. -/
def CodeOPInfo.op : CodeOPInfo → CodeOP
  | .mk _ o => o

/-- `HashMap::get`: look a key up in the flat environment. -/
def envGet (e : Env) (k : String) : Option Lisp :=
  match e with
  | [] => none
  | (k', v) :: r => if k' = k then some v else envGet r k

/-- `HashMap::insert`: bind a key, overwriting an existing binding in
place. -/
def envInsert (e : Env) (k : String) (v : Lisp) : Env :=
  match e with
  | [] => [(k, v)]
  | (k', v') :: r => if k' = k then (k, v) :: r else (k', v') :: envInsert r k v

/-- `HashMap::extend`: insert every binding of `other` into `e`,
overwriting on collision. -/
def envExtend (e other : Env) : Env :=
  other.foldl (fun acc p => envInsert acc p.1 p.2) e

/-- Modelled from the spec: a continuation-dump frame of `data.rs`
(not under `src/`): `DumpAP` saves (stack, environment, code-cursor) at an
application, `DumpSEL` saves the code-cursor at a conditional. -/
inductive DumpOP where
  | DumpAP (stack : List Lisp) (env : Env) (code : Code)
  | DumpSEL (code : Code)

/-- Modelled from the spec: the machine state of `data.rs` (not under
`src/`): the four SECD registers. -/
structure SECD where
  stack : List Lisp
  env : Env
  code : Code
  dump : List DumpOP

/-- Outcome of a VM step or run: a successful value, an error result
(`SECD::error`), a Rust panic (`crash`), or fuel exhaustion (`timeout`,
an artifact of embedding the unbounded interpreter loop). -/
inductive VMOut (α : Type) where
  | ok (a : α)
  | err (info : Info) (msg : String)
  | crash (msg : String)
  | timeout

mutual

/-- Modelled from the spec: structural equality on values (`PartialEq`
for `Lisp`, derived in `data.rs`, which is not under `src/`): ints by
value, tags by tag, pairs and lists recursively; closure equality is
componentwise (deterministic, as the spec requires). -/
def lispEq : Lisp → Lisp → Bool
  | .Int n, .Int m => n == m
  | .Nil, .Nil => true
  | .True, .True => true
  | .False, .False => true
  | .Cons a b, .Cons c d => lispEq a c && lispEq b d
  | .List xs, .List ys => lispListEq xs ys
  | .Closure ns c e, .Closure ms d f => ns == ms && codeEq c d && envEq e f
  | _, _ => false

/-- Elementwise `lispEq` on value lists. -/
def lispListEq : List Lisp → List Lisp → Bool
  | [], [] => true
  | x :: xs, y :: ys => lispEq x y && lispListEq xs ys
  | _, _ => false

/-- Elementwise equality on instruction sequences. -/
def codeEq : List CodeOPInfo → List CodeOPInfo → Bool
  | [], [] => true
  | c :: cs, d :: ds => codeOpInfoEq c d && codeEq cs ds
  | _, _ => false

/-- Equality on positioned instructions. -/
def codeOpInfoEq : CodeOPInfo → CodeOPInfo → Bool
  | .mk i o, .mk j p => i == j && codeOpEq o p

/-- Equality on operations. -/
def codeOpEq : CodeOP → CodeOP → Bool
  | .LET a, .LET b => a == b
  | .LD a, .LD b => a == b
  | .LDC v, .LDC w => lispEq v w
  | .LDF ns c, .LDF ms d => ns == ms && codeEq c d
  | .RET, .RET => true
  | .AP, .AP => true
  | .RAP, .RAP => true
  | .ARGS n, .ARGS m => n == m
  | .PUTS, .PUTS => true
  | .SEL t f, .SEL u g => codeEq t u && codeEq f g
  | .JOIN, .JOIN => true
  | .EQ, .EQ => true
  | .ADD, .ADD => true
  | .SUB, .SUB => true
  | .CONS, .CONS => true
  | .CAR, .CAR => true
  | .CDR, .CDR => true
  | _, _ => false

/-- Elementwise equality on environments. -/
def envEq : List (String × Lisp) → List (String × Lisp) → Bool
  | [], [] => true
  | (k, v) :: r, (l, w) :: s => k == l && lispEq v w && envEq r s
  | _, _ => false

end

/-- `SECD::new`: initial machine state for an instruction sequence. -/
def SECD.new (c : Code) : SECD :=
  { stack := [], env := [], code := c, dump := [] }

/-- `LET`: pop the top of stack and bind it to `id` in the environment
(`run_let` in `vm.rs`). -/
def SECD.run_let (s : SECD) (info : Info) (id : String) : VMOut SECD :=
  match s.stack with
  | expr :: rest => .ok { s with stack := rest, env := envInsert s.env id expr }
  | [] => .err info ("LET: stack is empty")

/-- `LD`: push the value bound to `id`, failing if unbound (`run_ld`). -/
def SECD.run_ld (s : SECD) (info : Info) (id : String) : VMOut SECD :=
  match envGet s.env id with
  | some expr => .ok { s with stack := expr :: s.stack }
  | none => .err info ("LD: found " ++ id)

/-- `LDC`: push a constant (`run_ldc`). -/
def SECD.run_ldc (s : SECD) (_info : Info) (v : Lisp) : VMOut SECD :=
  .ok { s with stack := v :: s.stack }

/-- `LDF`: push a closure capturing a snapshot of the current
environment (`run_ldf`). -/
def SECD.run_ldf (s : SECD) (_info : Info) (names : List String) (code : Code) : VMOut SECD :=
  .ok { s with stack := Lisp.Closure names code s.env :: s.stack }

/-- The parameter-binding loop of `run_ap`/`run_rap`:
`for i in 0..names.len() { env.insert(names[i], vals[i]) }`.
Indexing `vals[i]` past the end of `vals` is a Rust panic, modelled as
`none`; values of `vals` beyond `names.len()` are never read. -/
def bindArgs (e : Env) : List String → List Lisp → Option Env
  | [], _ => some e
  | _ :: _, [] => none
  | n :: ns, v :: vs => bindArgs (envInsert e n v) ns vs

/-- `AP`: pop a closure and a packed argument list, bind the parameters
over the captured environment, save (stack, env, code) on the dump and
enter the body with an empty stack (`run_ap`). -/
def SECD.run_ap (s : SECD) (info : Info) : VMOut SECD :=
  match s.stack with
  | [] => .err info ("AP: stack is empty")
  | closure :: rest1 =>
    match closure with
    | .Closure names code env =>
      match rest1 with
      | [] => .err info ("AP: stack is empty")
      | list :: rest2 =>
        match list with
        | .List vals =>
          match bindArgs env names vals with
          | some env' =>
            .ok { stack := [], env := env', code := code,
                  dump := .DumpAP rest2 s.env s.code :: s.dump }
          | none => .crash ("index out of bounds")
        | _ => .err info ("AP: expected List")
    | _ => .err info ("AP: expected Closure")

/-- `RAP`: like `AP`, but the dump frame saves the caller's environment
and the caller's live environment is extended in place with the merged
bindings instead of being replaced (`run_rap`). -/
def SECD.run_rap (s : SECD) (info : Info) : VMOut SECD :=
  match s.stack with
  | [] => .err info ("RAP: stack is empty")
  | closure :: rest1 =>
    match closure with
    | .Closure names code env =>
      match rest1 with
      | [] => .err info ("RAP: stack is empty")
      | list :: rest2 =>
        match list with
        | .List vals =>
          match bindArgs env names vals with
          | some env' =>
            .ok { stack := [], env := envExtend s.env env', code := code,
                  dump := .DumpAP rest2 s.env s.code :: s.dump }
          | none => .crash ("index out of bounds")
        | _ => .err info ("RAP: expected List")
    | _ => .err info ("RAP: expected Closure")

/-- `RET`: pop the return value, restore (stack, env, code) from the
topmost `DumpAP` frame, and push the return value (`run_ret`). -/
def SECD.run_ret (s : SECD) (info : Info) : VMOut SECD :=
  match s.stack with
  | [] => .err info ("RET: stack is empty")
  | val :: _ =>
    match s.dump with
    | .DumpAP stack env code :: drest =>
      .ok { stack := val :: stack, env := env, code := code, dump := drest }
    | _ => .err info ("RET: dump is empty")

/-- The pop loop of `run_args`: pop `n` values, each prepended to the
accumulator (`ls.insert(0, a)`), returning the packed list and the
remaining stack, or `none` on underflow. -/
def popArgs (stack : List Lisp) (n : Nat) (acc : List Lisp) :
    Option (List Lisp × List Lisp) :=
  match n with
  | 0 => some (acc, stack)
  | n + 1 =>
    match stack with
    | [] => none
    | a :: r => popArgs r n (a :: acc)
termination_by structural n

/-- `ARGS n`: pop `n` values and push them as one `List`, reversing the
pop order (`run_args`). -/
def SECD.run_args (s : SECD) (info : Info) (n : Nat) : VMOut SECD :=
  match popArgs s.stack n [] with
  | some (ls, rest) => .ok { s with stack := Lisp.List ls :: rest }
  | none => .err info ("ARGS: " ++ toString n)

/-- `PUTS`: print the top of stack (the printing itself is outside the
model); the state is unchanged, failing on an empty stack (`run_puts`). -/
def SECD.run_puts (s : SECD) (info : Info) : VMOut SECD :=
  match s.stack with
  | [] => .err info ("PUTS: expected args")
  | _ :: _ => .ok s

/-- `SEL`: pop the condition, save the current code-cursor as a
`DumpSEL` frame and enter the chosen branch; a non-boolean top is a
type error (`run_sel`). -/
def SECD.run_sel (s : SECD) (info : Info) (t f : Code) : VMOut SECD :=
  match s.stack with
  | [] => .err info ("SEL: stack is empty")
  | b :: rest =>
    match b with
    | .True => .ok { stack := rest, env := s.env, code := t,
                     dump := .DumpSEL s.code :: s.dump }
    | .False => .ok { stack := rest, env := s.env, code := f,
                      dump := .DumpSEL s.code :: s.dump }
    | _ => .err info ("SEL: expected bool")

/-- `JOIN`: restore the code-cursor from the topmost `DumpSEL` frame
(`run_join`). -/
def SECD.run_join (s : SECD) (info : Info) : VMOut SECD :=
  match s.dump with
  | .DumpSEL code :: drest => .ok { s with code := code, dump := drest }
  | .DumpAP _ _ _ :: _ => .err info ("JOIN: expected DumpSEL")
  | [] => .err info ("JOIN: dump is empty")

/-- `EQ`: pop two values and push the boolean of their structural
equality (`run_eq`). -/
def SECD.run_eq (s : SECD) (info : Info) : VMOut SECD :=
  match s.stack with
  | [] => .err info ("EQ: stack is empty")
  | a :: rest1 =>
    match rest1 with
    | [] => .err info ("EQ: stack is empty")
    | b :: rest2 =>
      .ok { s with stack := (if lispEq a b then Lisp.True else Lisp.False) :: rest2 }

/-- The `i32` range of Rust: `-2^31 <= n < 2^31`. -/
def isI32 (n : Int) : Prop :=
  -2147483648 <= n ∧ n < 2147483648

instance (n : Int) : Decidable (isI32 n) := by
  unfold isI32
  infer_instance

/-- Two's-complement wrap of an integer into the `i32` range: the value
Rust's `i32` addition and subtraction produce (release builds wrap on
overflow; debug builds panic there; on representable results — where the
two profiles agree — `wrap32` is the identity). -/
def wrap32 (n : Int) : Int :=
  (n + 2147483648) % 4294967296 - 2147483648

/-- `ADD`: pop `a` then `b`, both integers, and push the `i32` sum
`b + a` (`m + n` in `run_add`, two's-complement fixed-width). -/
def SECD.run_add (s : SECD) (info : Info) : VMOut SECD :=
  match s.stack with
  | [] => .err info ("ADD: stack is empty")
  | a :: rest1 =>
    match a with
    | .Int n =>
      match rest1 with
      | [] => .err info ("ADD: stack is empty")
      | b :: rest2 =>
        match b with
        | .Int m => .ok { s with stack := Lisp.Int (wrap32 (m + n)) :: rest2 }
        | _ => .err info ("ADD: expected int")
    | _ => .err info ("ADD: expected int")

/-- `SUB`: pop `a` then `b`, both integers, and push the `i32`
difference `b - a` (`o - n` in `run_sub`, two's-complement
fixed-width). -/
def SECD.run_sub (s : SECD) (info : Info) : VMOut SECD :=
  match s.stack with
  | [] => .err info ("SUB: stack is empty")
  | a :: rest1 =>
    match a with
    | .Int n =>
      match rest1 with
      | [] => .err info ("SUB: stack is empty")
      | b :: rest2 =>
        match b with
        | .Int o => .ok { s with stack := Lisp.Int (wrap32 (o - n)) :: rest2 }
        | _ => .err info ("SUB: expected int")
    | _ => .err info ("SUB: expected int")

/-- `CONS`: pop `a` then `b` and push `Cons(b, a)` (`run_cons`). -/
def SECD.run_cons (s : SECD) (info : Info) : VMOut SECD :=
  match s.stack with
  | [] => .err info ("CONS: stack is empty")
  | a :: rest1 =>
    match rest1 with
    | [] => .err info ("CONS: stack is empty")
    | b :: rest2 => .ok { s with stack := Lisp.Cons b a :: rest2 }

/-- `CAR`: pop a pair and push its first component (`run_car`). -/
def SECD.run_car (s : SECD) (info : Info) : VMOut SECD :=
  match s.stack with
  | [] => .err info ("CAR: stack is empty")
  | a :: rest =>
    match a with
    | .Cons car _ => .ok { s with stack := car :: rest }
    | _ => .err info ("CAR: expected Cons")

/-- `CDR`: pop a pair and push its second component (`run_cdr`). -/
def SECD.run_cdr (s : SECD) (info : Info) : VMOut SECD :=
  match s.stack with
  | [] => .err info ("CDR: stack is empty")
  | a :: rest =>
    match a with
    | .Cons _ cdr => .ok { s with stack := cdr :: rest }
    | _ => .err info ("CDR: expected Cons")

/-- Dispatch one fetched instruction, as the `match c.op` in `run_`;
the state already has the instruction removed from `code`. -/
def SECD.stepOp (s : SECD) (info : Info) : CodeOP → VMOut SECD
  | .LET id => s.run_let info id
  | .LD id => s.run_ld info id
  | .LDC v => s.run_ldc info v
  | .LDF names code => s.run_ldf info names code
  | .RET => s.run_ret info
  | .AP => s.run_ap info
  | .RAP => s.run_rap info
  | .ARGS n => s.run_args info n
  | .PUTS => s.run_puts info
  | .SEL t f => s.run_sel info t f
  | .JOIN => s.run_join info
  | .EQ => s.run_eq info
  | .ADD => s.run_add info
  | .SUB => s.run_sub info
  | .CONS => s.run_cons info
  | .CAR => s.run_car info
  | .CDR => s.run_cdr info

/-- The interpreter loop `run_`: take the next instruction from the
front of `code`, execute it, repeat until `code` is exhausted.  `fuel`
bounds the number of iterations (embedding artifact for the unbounded
`while`). -/
def SECD.run_ : Nat → SECD → VMOut SECD
  | _, s@(.mk _ _ [] _) => .ok s
  | 0, _ => .timeout
  | fuel + 1, s =>
    match s.code with
    | [] => .ok s
    | c :: rest =>
      match SECD.stepOp { s with code := rest } c.info c.op with
      | .ok s' => SECD.run_ fuel s'
      | .err i m => .err i m
      | .crash m => .crash m
      | .timeout => .timeout

/-- `run`: execute to completion and return the top of the final stack;
`self.stack.last().unwrap()` panics when the final stack is empty. -/
def SECD.run (fuel : Nat) (s : SECD) : VMOut Lisp :=
  match SECD.run_ fuel s with
  | .ok s' =>
    match s'.stack with
    | v :: _ => .ok v
    | [] => .crash ("called Option::unwrap on a None value")
  | .err i m => .err i m
  | .crash m => .crash m
  | .timeout => .timeout

/-! ## Compiler (`src/compiler.rs`) -/

mutual

/-- An AST node shape: integer literal, symbol, or list of nodes
(`SExpr` of `data.rs`, modelled from the spec as it is not under
`src/`). -/
inductive SExpr where
  | Int (n : Int)
  | Atom (id : String)
  | List (ls : List AST)

/-- An AST node with its source position (`AST` of `data.rs`,
modelled from the spec). -/
inductive AST where
  | mk (sexpr : SExpr) (info : Info)

end

/-- The shape of an AST node. -/
def AST.sexpr : AST → SExpr
  | .mk s _ => s

/-- The source position of an AST node. -/
def AST.info : AST → Info
  | .mk _ i => i

/-- Compiler state: the instruction stream built so far and the
letrec-tracking list of identifiers currently considered recursively
bound. -/
structure Compiler where
  code : Code
  letrec_id_list : List String

/-- A compile error carrying the triggering source position and a
message (`Compiler::error`). -/
abbrev CErr := Info × String

/-- `Compiler::new`. -/
def Compiler.new : Compiler :=
  { code := [], letrec_id_list := [] }

/-- `self.code.push(CodeOPInfo { info, op })`. -/
def emit (c : Compiler) (info : Info) (op : CodeOP) : Compiler :=
  { c with code := c.code ++ [.mk info op] }

/-- `compile_int`: an integer literal compiles to one `LDC`. -/
def Compiler.compile_int (c : Compiler) (info : Info) (n : Int) : Except CErr Compiler :=
  .ok (emit c info (.LDC (.Int n)))

/-- `compile_atom`: the reserved names compile to `LDC` of their
literal value, any other symbol to `LD`. -/
def Compiler.compile_atom (c : Compiler) (info : Info) (id : String) : Except CErr Compiler :=
  match id with
  | "nil" => .ok (emit c info (.LDC .Nil))
  | "true" => .ok (emit c info (.LDC .True))
  | "false" => .ok (emit c info (.LDC .False))
  | _ => .ok (emit c info (.LD id))

/-- `compile_nil`: the empty list compiles to `LDC Nil`. -/
def Compiler.compile_nil (c : Compiler) (info : Info) : Except CErr Compiler :=
  .ok (emit c info (.LDC .Nil))

/-- The parameter-binder analysis of `compile_lambda`: a single symbol
or a list of symbols; anything else is a "lambda args" error (with the
lambda's position for a bad list element, the binder's own position
otherwise). -/
def lambdaParams (info : Info) (arg : AST) : Except CErr (List String) :=
  match arg with
  | .mk (.Atom a) _ => .ok [a]
  | .mk (.List aa) _ => atomNames info aa
  | .mk (.Int _) ainfo => .error (ainfo, "lambda args")
where
  /-- Collect the names of a list of symbol nodes. -/
  atomNames (info : Info) : List AST → Except CErr (List String)
    | [] => .ok []
    | .mk (.Atom a) _ :: rest => (atomNames info rest).map (a :: ·)
    | _ => .error (info, "lambda args")

mutual

/-- `compile_`: syntax-directed dispatch on the AST shape.  The `fuel`
argument bounds the recursion depth (embedding artifact); every rule of
`compiler.rs` is reproduced at `fuel + 1`. -/
def Compiler.compile_ : Nat → Compiler → AST → Except CErr Compiler
  | 0, _, _ => .error ((0, 0), "out of fuel")
  | fuel + 1, c, ast =>
    match ast with
    | .mk (.Int n) info => c.compile_int info n
    | .mk (.Atom id) info => c.compile_atom info id
    | .mk (.List ls) info =>
      match ls with
      | [] => c.compile_nil info
      | fn :: args =>
        match fn with
        | .mk (.Int _) info2 => .error (info2, "apply unexpect int")
        | .mk (.Atom id) info2 =>
          match id with
          | "lambda" => Compiler.compile_lambda fuel c info2 args
          | "let" => Compiler.compile_let fuel c info2 args
          | "letrec" => Compiler.compile_letrec fuel c info2 args
          | "puts" => Compiler.compile_puts fuel c info2 args
          | "if" => Compiler.compile_if fuel c info2 args
          | "eq" => Compiler.compile_eq fuel c info2 args
          | "+" => Compiler.compile_add fuel c info2 args
          | "-" => Compiler.compile_sub fuel c info2 args
          | "cons" => Compiler.compile_cons fuel c info2 args
          | "car" => Compiler.compile_car fuel c info2 args
          | "cdr" => Compiler.compile_cdr fuel c info2 args
          | _ => Compiler.compile_apply fuel c info2 (.mk (.Atom id) info2) args
        | .mk (.List l2) info2 => Compiler.compile_apply fuel c info2 (.mk (.List l2) info2) args

/-- `compile_lambda`: compile the body in a fresh sub-compiler that
inherits the letrec-tracking list, append `RET`, and emit one `LDF`. -/
def Compiler.compile_lambda : Nat → Compiler → Info → List AST → Except CErr Compiler
  | 0, _, _, _ => .error ((0, 0), "out of fuel")
  | fuel + 1, c, info, ls =>
    match ls with
    | [arg, body] =>
      match lambdaParams info arg with
      | .error e => .error e
      | .ok args =>
        match Compiler.compile_ fuel { code := [], letrec_id_list := c.letrec_id_list } body with
        | .error e => .error e
        | .ok bc => .ok (emit c info (.LDF args (bc.code ++ [.mk info .RET])))
    | _ => .error (info, "lambda syntax")

/-- `compile_let`: remove the id from the letrec-tracking list, compile
the bound expression, emit `LET`, and continue with the body in the same
stream. -/
def Compiler.compile_let : Nat → Compiler → Info → List AST → Except CErr Compiler
  | 0, _, _, _ => .error ((0, 0), "out of fuel")
  | fuel + 1, c, info, ls =>
    match ls with
    | [var, expr, body] =>
      match var with
      | .mk (.Atom id) _ =>
        match Compiler.compile_ fuel
            { c with letrec_id_list := c.letrec_id_list.filter (· ≠ id) } expr with
        | .error e => .error e
        | .ok c1 => Compiler.compile_ fuel (emit c1 info (.LET id)) body
      | _ => .error (info, "let bind id sytax")
    | _ => .error (info, "let syntax")

/-- `compile_letrec`: identical to `compile_let`, except the id is
pushed onto the letrec-tracking list before the bound expression is
compiled (and is never removed when the form ends). -/
def Compiler.compile_letrec : Nat → Compiler → Info → List AST → Except CErr Compiler
  | 0, _, _, _ => .error ((0, 0), "out of fuel")
  | fuel + 1, c, info, ls =>
    match ls with
    | [var, expr, body] =>
      match var with
      | .mk (.Atom id) _ =>
        match Compiler.compile_ fuel
            { c with letrec_id_list := c.letrec_id_list ++ [id] } expr with
        | .error e => .error e
        | .ok c1 => Compiler.compile_ fuel (emit c1 info (.LET id)) body
      | _ => .error (info, "let bind id sytax")
    | _ => .error (info, "let syntax")

/-- `compile_puts`: compile the argument and emit `PUTS`. -/
def Compiler.compile_puts : Nat → Compiler → Info → List AST → Except CErr Compiler
  | 0, _, _, _ => .error ((0, 0), "out of fuel")
  | fuel + 1, c, info, ls =>
    match ls with
    | [expr] =>
      match Compiler.compile_ fuel c expr with
      | .error e => .error e
      | .ok c1 => .ok (emit c1 info .PUTS)
    | _ => .error (info, "puts syntax")

/-- The argument loop of `compile_apply`: compile each argument in
order into the current stream. -/
def Compiler.compileArgs : Nat → Compiler → List AST → Except CErr Compiler
  | 0, _, _ => .error ((0, 0), "out of fuel")
  | _ + 1, c, [] => .ok c
  | fuel + 1, c, a :: rest =>
    match Compiler.compile_ fuel c a with
    | .error e => .error e
    | .ok c1 => Compiler.compileArgs fuel c1 rest

/-- `compile_apply`: compile the arguments left to right, emit
`ARGS(count)`, compile the head, then emit `RAP` when the head is a
bare symbol found in the letrec-tracking list and `AP` otherwise. -/
def Compiler.compile_apply : Nat → Compiler → Info → AST → List AST → Except CErr Compiler
  | 0, _, _, _, _ => .error ((0, 0), "out of fuel")
  | fuel + 1, c, info, lam, ls =>
    match Compiler.compileArgs fuel c ls with
    | .error e => .error e
    | .ok c1 =>
      let c2 := emit c1 info (.ARGS ls.length)
      match Compiler.compile_ fuel c2 lam with
      | .error e => .error e
      | .ok c3 =>
        match lam with
        | .mk (.Atom id) _ =>
          if c3.letrec_id_list.contains id then .ok (emit c3 info .RAP)
          else .ok (emit c3 info .AP)
        | _ => .ok (emit c3 info .AP)

/-- `compile_if`: compile the condition, compile each branch in a fresh
sub-compiler inheriting the letrec-tracking list with `JOIN` appended,
and emit one `SEL`. -/
def Compiler.compile_if : Nat → Compiler → Info → List AST → Except CErr Compiler
  | 0, _, _, _ => .error ((0, 0), "out of fuel")
  | fuel + 1, c, info, ls =>
    match ls with
    | [cond, then_, else_] =>
      match Compiler.compile_ fuel c cond with
      | .error e => .error e
      | .ok c1 =>
        match Compiler.compile_ fuel { code := [], letrec_id_list := c1.letrec_id_list } then_ with
        | .error e => .error e
        | .ok tc =>
          match Compiler.compile_ fuel { code := [], letrec_id_list := c1.letrec_id_list } else_ with
          | .error e => .error e
          | .ok fc =>
            .ok (emit c1 info (.SEL (tc.code ++ [.mk then_.info .JOIN])
                                    (fc.code ++ [.mk else_.info .JOIN])))
    | _ => .error (info, "if syntax")

/-- `compile_eq`: compile both operands then emit `EQ`. -/
def Compiler.compile_eq : Nat → Compiler → Info → List AST → Except CErr Compiler
  | 0, _, _, _ => .error ((0, 0), "out of fuel")
  | fuel + 1, c, info, ls =>
    match ls with
    | [l, r] =>
      match Compiler.compile_ fuel c l with
      | .error e => .error e
      | .ok c1 =>
        match Compiler.compile_ fuel c1 r with
        | .error e => .error e
        | .ok c2 => .ok (emit c2 info .EQ)
    | _ => .error (info, "eq syntax")

/-- `compile_add`: compile both operands then emit `ADD`. -/
def Compiler.compile_add : Nat → Compiler → Info → List AST → Except CErr Compiler
  | 0, _, _, _ => .error ((0, 0), "out of fuel")
  | fuel + 1, c, info, ls =>
    match ls with
    | [l, r] =>
      match Compiler.compile_ fuel c l with
      | .error e => .error e
      | .ok c1 =>
        match Compiler.compile_ fuel c1 r with
        | .error e => .error e
        | .ok c2 => .ok (emit c2 info .ADD)
    | _ => .error (info, "add syntax")

/-- `compile_sub`: compile both operands then emit `SUB`. -/
def Compiler.compile_sub : Nat → Compiler → Info → List AST → Except CErr Compiler
  | 0, _, _, _ => .error ((0, 0), "out of fuel")
  | fuel + 1, c, info, ls =>
    match ls with
    | [l, r] =>
      match Compiler.compile_ fuel c l with
      | .error e => .error e
      | .ok c1 =>
        match Compiler.compile_ fuel c1 r with
        | .error e => .error e
        | .ok c2 => .ok (emit c2 info .SUB)
    | _ => .error (info, "sub syntax")

/-- `compile_cons`: compile both operands then emit `CONS`. -/
def Compiler.compile_cons : Nat → Compiler → Info → List AST → Except CErr Compiler
  | 0, _, _, _ => .error ((0, 0), "out of fuel")
  | fuel + 1, c, info, ls =>
    match ls with
    | [l, r] =>
      match Compiler.compile_ fuel c l with
      | .error e => .error e
      | .ok c1 =>
        match Compiler.compile_ fuel c1 r with
        | .error e => .error e
        | .ok c2 => .ok (emit c2 info .CONS)
    | _ => .error (info, "cons syntax")

/-- `compile_car`: compile the operand then emit `CAR`. -/
def Compiler.compile_car : Nat → Compiler → Info → List AST → Except CErr Compiler
  | 0, _, _, _ => .error ((0, 0), "out of fuel")
  | fuel + 1, c, info, ls =>
    match ls with
    | [expr] =>
      match Compiler.compile_ fuel c expr with
      | .error e => .error e
      | .ok c1 => .ok (emit c1 info .CAR)
    | _ => .error (info, "car syntax")

/-- `compile_cdr`: compile the operand then emit `CDR`. -/
def Compiler.compile_cdr : Nat → Compiler → Info → List AST → Except CErr Compiler
  | 0, _, _, _ => .error ((0, 0), "out of fuel")
  | fuel + 1, c, info, ls =>
    match ls with
    | [expr] =>
      match Compiler.compile_ fuel c expr with
      | .error e => .error e
      | .ok c1 => .ok (emit c1 info .CDR)
    | _ => .error (info, "cdr syntax")

end

/-- `Compiler::compile`: run `compile_` and return the built code. -/
def Compiler.compile (fuel : Nat) (c : Compiler) (ast : AST) : Except CErr Code :=
  match Compiler.compile_ fuel c ast with
  | .ok c' => .ok c'.code
  | .error e => .error e

/-! ## Helper lemmas -/

/-- When at least as many values as parameter names are supplied, the
binding loop succeeds and computes the left fold of `envInsert` over the
name/value pairs (extra values are never read, as `zip` truncates). -/
lemma bindArgs_eq_extend : ∀ (names : List String) (vals : List Lisp) (e : Env),
    names.length ≤ vals.length →
    bindArgs e names vals = some (envExtend e (names.zip vals)) := by
  intro names
  induction names with
  | nil => intro vals e _; rfl
  | cons n ns ih =>
    intro vals e h
    match vals with
    | [] => simp at h
    | v :: vs =>
      simp only [bindArgs]
      rw [ih vs (envInsert e n v) (by simpa using h)]
      rfl

/-- Zipping against a truncation to the left length is the plain zip. -/
lemma zip_take_self : ∀ (ns : List String) (vs : List Lisp),
    ns.zip (vs.take ns.length) = ns.zip vs := by
  intro ns
  induction ns with
  | nil => intro vs; rfl
  | cons n ns ih =>
    intro vs
    match vs with
    | [] => rfl
    | v :: vs => simp [List.zip_cons_cons, ih vs]

/-- Popping exactly `front.length` values off `front ++ rest` packs
`front` in reverse pop order in front of the accumulator and leaves
`rest`. -/
lemma popArgs_append : ∀ (front rest acc : List Lisp),
    popArgs (front ++ rest) front.length acc = some (front.reverse ++ acc, rest) := by
  intro front
  induction front with
  | nil => intro rest acc; rfl
  | cons a f ih =>
    intro rest acc
    simp only [List.cons_append, List.length_cons, popArgs]
    rw [ih rest (a :: acc)]
    simp

/-- Popping more values than the stack holds underflows. -/
lemma popArgs_short : ∀ (stack : List Lisp) (n : Nat) (acc : List Lisp),
    stack.length < n → popArgs stack n acc = none := by
  intro stack
  induction stack with
  | nil =>
    intro n acc h
    match n with
    | 0 => simp at h
    | _ + 1 => rfl
  | cons a r ih =>
    intro n acc h
    match n with
    | 0 => simp at h
    | k + 1 =>
      simp only [popArgs]
      exact ih k (a :: acc) (by simpa using h)

/-- On any representable result `wrap32` is the identity, so wherever
the `i32` sum or difference fits, debug (panicking) and release
(wrapping) Rust agree and the machine pushes the exact value. -/
lemma wrap32_eq_self (n : Int) (h : isI32 n) : wrap32 n = n := by
  unfold isI32 at h
  unfold wrap32
  omega

/-- Prefix extension is transitive. -/
lemma code_app_trans {a b c : Code} :
    (∃ t, b = a ++ t) → (∃ t, c = b ++ t) → ∃ t, c = a ++ t := by
  rintro ⟨t1, rfl⟩ ⟨t2, rfl⟩
  exact ⟨t1 ++ t2, by simp⟩

/-- `compile_int` only appends to the code stream. -/
lemma compile_int_extends {c : Compiler} {info : Info} {n : Int} {c' : Compiler}
    (h : Compiler.compile_int c info n = .ok c') : ∃ t, c'.code = c.code ++ t := by
  unfold Compiler.compile_int at h
  cases h
  exact ⟨_, rfl⟩

/-- `compile_atom` only appends to the code stream. -/
lemma compile_atom_extends {c : Compiler} {info : Info} {id : String} {c' : Compiler}
    (h : Compiler.compile_atom c info id = .ok c') : ∃ t, c'.code = c.code ++ t := by
  unfold Compiler.compile_atom at h
  split at h
  all_goals cases h
  all_goals exact ⟨_, rfl⟩

/-- `compile_nil` only appends to the code stream. -/
lemma compile_nil_extends {c : Compiler} {info : Info} {c' : Compiler}
    (h : Compiler.compile_nil c info = .ok c') : ∃ t, c'.code = c.code ++ t := by
  unfold Compiler.compile_nil at h
  cases h
  exact ⟨_, rfl⟩

/-- Every compiler function only ever appends to the instruction stream
it is handed: whatever any of the mutually recursive compile functions
returns successfully has the incoming `code` as a prefix. -/
lemma compile_code_extends : ∀ fuel : Nat,
    (∀ c ast c', Compiler.compile_ fuel c ast = .ok c' → ∃ t, c'.code = c.code ++ t)
    ∧ (∀ c info ls c', Compiler.compile_lambda fuel c info ls = .ok c' →
        ∃ t, c'.code = c.code ++ t)
    ∧ (∀ c info ls c', Compiler.compile_let fuel c info ls = .ok c' →
        ∃ t, c'.code = c.code ++ t)
    ∧ (∀ c info ls c', Compiler.compile_letrec fuel c info ls = .ok c' →
        ∃ t, c'.code = c.code ++ t)
    ∧ (∀ c info ls c', Compiler.compile_puts fuel c info ls = .ok c' →
        ∃ t, c'.code = c.code ++ t)
    ∧ (∀ c ls c', Compiler.compileArgs fuel c ls = .ok c' → ∃ t, c'.code = c.code ++ t)
    ∧ (∀ c info lam ls c', Compiler.compile_apply fuel c info lam ls = .ok c' →
        ∃ t, c'.code = c.code ++ t)
    ∧ (∀ c info ls c', Compiler.compile_if fuel c info ls = .ok c' →
        ∃ t, c'.code = c.code ++ t)
    ∧ (∀ c info ls c', Compiler.compile_eq fuel c info ls = .ok c' →
        ∃ t, c'.code = c.code ++ t)
    ∧ (∀ c info ls c', Compiler.compile_add fuel c info ls = .ok c' →
        ∃ t, c'.code = c.code ++ t)
    ∧ (∀ c info ls c', Compiler.compile_sub fuel c info ls = .ok c' →
        ∃ t, c'.code = c.code ++ t)
    ∧ (∀ c info ls c', Compiler.compile_cons fuel c info ls = .ok c' →
        ∃ t, c'.code = c.code ++ t)
    ∧ (∀ c info ls c', Compiler.compile_car fuel c info ls = .ok c' →
        ∃ t, c'.code = c.code ++ t)
    ∧ (∀ c info ls c', Compiler.compile_cdr fuel c info ls = .ok c' →
        ∃ t, c'.code = c.code ++ t) := by
  intro fuel
  induction fuel with
  | zero =>
    refine ⟨?_, ?_, ?_, ?_, ?_, ?_, ?_, ?_, ?_, ?_, ?_, ?_, ?_, ?_⟩
    · intro c ast c' h; simp [Compiler.compile_] at h
    · intro c info ls c' h; simp [Compiler.compile_lambda] at h
    · intro c info ls c' h; simp [Compiler.compile_let] at h
    · intro c info ls c' h; simp [Compiler.compile_letrec] at h
    · intro c info ls c' h; simp [Compiler.compile_puts] at h
    · intro c ls c' h; simp [Compiler.compileArgs] at h
    · intro c info lam ls c' h; simp [Compiler.compile_apply] at h
    · intro c info ls c' h; simp [Compiler.compile_if] at h
    · intro c info ls c' h; simp [Compiler.compile_eq] at h
    · intro c info ls c' h; simp [Compiler.compile_add] at h
    · intro c info ls c' h; simp [Compiler.compile_sub] at h
    · intro c info ls c' h; simp [Compiler.compile_cons] at h
    · intro c info ls c' h; simp [Compiler.compile_car] at h
    · intro c info ls c' h; simp [Compiler.compile_cdr] at h
  | succ n ih =>
    obtain ⟨ihc, ihlam, ihlet, ihletrec, ihputs, ihargs, ihapply, ihif, iheq, ihadd,
      ihsub, ihcons, ihcar, ihcdr⟩ := ih
    refine ⟨?_, ?_, ?_, ?_, ?_, ?_, ?_, ?_, ?_, ?_, ?_, ?_, ?_, ?_⟩
    · intro c ast c' h
      simp only [Compiler.compile_] at h
      repeat' split at h
      all_goals
        first
        | exact compile_int_extends h
        | exact compile_atom_extends h
        | exact compile_nil_extends h
        | exact ihlam _ _ _ _ h
        | exact ihlet _ _ _ _ h
        | exact ihletrec _ _ _ _ h
        | exact ihputs _ _ _ _ h
        | exact ihif _ _ _ _ h
        | exact iheq _ _ _ _ h
        | exact ihadd _ _ _ _ h
        | exact ihsub _ _ _ _ h
        | exact ihcons _ _ _ _ h
        | exact ihcar _ _ _ _ h
        | exact ihcdr _ _ _ _ h
        | exact ihapply _ _ _ _ _ h
        | cases h
    · intro c info ls c' h
      simp only [Compiler.compile_lambda] at h
      repeat' split at h
      all_goals cases h
      all_goals exact ⟨_, rfl⟩
    · intro c info ls c' h
      simp only [Compiler.compile_let] at h
      repeat' split at h
      all_goals try cases h
      all_goals rename_i c1 hc1
      all_goals
        (have h1 := ihc _ _ _ hc1
         exact code_app_trans (code_app_trans h1 ⟨_, rfl⟩) (ihc _ _ _ h))
    · intro c info ls c' h
      simp only [Compiler.compile_letrec] at h
      repeat' split at h
      all_goals try cases h
      all_goals rename_i c1 hc1
      all_goals
        (have h1 := ihc _ _ _ hc1
         exact code_app_trans (code_app_trans h1 ⟨_, rfl⟩) (ihc _ _ _ h))
    · intro c info ls c' h
      simp only [Compiler.compile_puts] at h
      repeat' split at h
      all_goals try cases h
      all_goals rename_i c1 hc1
      all_goals exact code_app_trans (ihc _ _ _ hc1) ⟨_, rfl⟩
    · intro c ls c' h
      cases ls with
      | nil =>
        simp only [Compiler.compileArgs] at h
        cases h
        exact ⟨[], by simp⟩
      | cons a rest =>
        simp only [Compiler.compileArgs] at h
        split at h
        · cases h
        · rename_i c1 hc1
          exact code_app_trans (ihc _ _ _ hc1) (ihargs _ _ _ h)
    · intro c info lam ls c' h
      simp only [Compiler.compile_apply] at h
      split at h
      · cases h
      · rename_i c1 hc1
        split at h
        · cases h
        · rename_i c3 hc3
          have h1 : ∃ t, c1.code = c.code ++ t := ihargs _ _ _ hc1
          have h3 := ihc _ _ _ hc3
          have hfin : ∃ t, c'.code = c3.code ++ t := by
            repeat' split at h
            all_goals cases h
            all_goals exact ⟨_, rfl⟩
          exact code_app_trans (code_app_trans h1 (code_app_trans ⟨_, rfl⟩ h3)) hfin
    · intro c info ls c' h
      simp only [Compiler.compile_if] at h
      split at h
      · split at h
        · cases h
        · rename_i c1 hc1
          split at h
          · cases h
          · rename_i tc htc
            split at h
            · cases h
            · rename_i fc hfc
              cases h
              exact code_app_trans (ihc _ _ _ hc1) ⟨_, rfl⟩
      · cases h
    · intro c info ls c' h
      simp only [Compiler.compile_eq] at h
      split at h
      · split at h
        · cases h
        · rename_i c1 hc1
          split at h
          · cases h
          · rename_i c2 hc2
            cases h
            exact code_app_trans (ihc _ _ _ hc1)
              (code_app_trans (ihc _ _ _ hc2) ⟨_, rfl⟩)
      · cases h
    · intro c info ls c' h
      simp only [Compiler.compile_add] at h
      split at h
      · split at h
        · cases h
        · rename_i c1 hc1
          split at h
          · cases h
          · rename_i c2 hc2
            cases h
            exact code_app_trans (ihc _ _ _ hc1)
              (code_app_trans (ihc _ _ _ hc2) ⟨_, rfl⟩)
      · cases h
    · intro c info ls c' h
      simp only [Compiler.compile_sub] at h
      split at h
      · split at h
        · cases h
        · rename_i c1 hc1
          split at h
          · cases h
          · rename_i c2 hc2
            cases h
            exact code_app_trans (ihc _ _ _ hc1)
              (code_app_trans (ihc _ _ _ hc2) ⟨_, rfl⟩)
      · cases h
    · intro c info ls c' h
      simp only [Compiler.compile_cons] at h
      split at h
      · split at h
        · cases h
        · rename_i c1 hc1
          split at h
          · cases h
          · rename_i c2 hc2
            cases h
            exact code_app_trans (ihc _ _ _ hc1)
              (code_app_trans (ihc _ _ _ hc2) ⟨_, rfl⟩)
      · cases h
    · intro c info ls c' h
      simp only [Compiler.compile_car] at h
      repeat' split at h
      all_goals try cases h
      all_goals rename_i c1 hc1
      all_goals exact code_app_trans (ihc _ _ _ hc1) ⟨_, rfl⟩
    · intro c info ls c' h
      simp only [Compiler.compile_cdr] at h
      repeat' split at h
      all_goals try cases h
      all_goals rename_i c1 hc1
      all_goals exact code_app_trans (ihc _ _ _ hc1) ⟨_, rfl⟩

/-! ## Claim theorems -/

/-- Claim C1 (code_bug evidence): when the machine runs to completion
but the final stack is empty, `run()` does not return an error result:
`self.stack.last().unwrap()` panics.  Here the program `LDC 1; LET x`
executes without a runtime error, leaves an empty stack, and `run`
crashes instead of failing with a `RuntimeError`. -/
theorem c1_run_empty_final_stack_is_crash :
    SECD.run 2 (SECD.new [.mk (1, 1) (.LDC (.Int 1)), .mk (1, 2) (.LET "x")])
      = .crash ("called Option::unwrap on a None value") := rfl

/-- Claim C2 (code_bug evidence): applying a 2-parameter closure to a
`List` with a single value does not raise a `RuntimeError` carrying the
instruction's position: the binding loop of `run_ap` indexes `vals[1]`
out of bounds, a Rust panic.  The closure/list shape checks pass and
the machine crashes. -/
theorem c2_ap_short_args_is_crash :
    SECD.run_ap ⟨[.Closure ["x", "y"] [] [], .List [.Int 1]], [], [], []⟩ (7, 3)
      = .crash ("index out of bounds") := rfl

/-- Claim C3: on a `RAP` whose preconditions hold, the pushed `DumpAP`
frame holds the remaining stack, the *pre-extension* caller environment
and the current code-cursor, and the machine continues with an empty
stack, the closure body as code, and the caller's environment extended
in place with the merged bindings (captured environment overridden by
the positional parameter bindings) — not with the closure's captured
environment installed as the new environment. -/
theorem c3_rap_extends_caller_env (names : List String) (body : Code) (cenv : Env)
    (vals : List Lisp) (stk : List Lisp) (env : Env) (code : Code)
    (dump : List DumpOP) (info : Info) (h : names.length ≤ vals.length) :
    SECD.run_rap ⟨.Closure names body cenv :: .List vals :: stk, env, code, dump⟩ info
      = .ok ⟨[], envExtend env (envExtend cenv (names.zip vals)), body,
             .DumpAP stk env code :: dump⟩ := by
  simp only [SECD.run_rap]
  rw [bindArgs_eq_extend _ _ _ h]

/-- Witness for C3 at a concrete state. -/
theorem c3_witness :
    SECD.run_rap ⟨[.Closure ["x"] [] [("y", .Nil)], .List [.Int 5]],
                  [("z", .True)], [.mk (9, 9) .RET], []⟩ (3, 1)
      = .ok ⟨[], envExtend [("z", .True)] (envExtend [("y", .Nil)] (["x"].zip [.Int 5])),
             [], .DumpAP [] [("z", .True)] [.mk (9, 9) .RET] :: []⟩ :=
  c3_rap_extends_caller_env ["x"] [] [("y", .Nil)] [.Int 5] [] [("z", .True)]
    [.mk (9, 9) .RET] [] (3, 1) (by decide)

/-- Claim C4: AP/RET frame symmetry.  Applying a `k`-parameter closure
to a `List` of exactly `k` values pushes a `DumpAP` frame holding
exactly the pre-call stack (minus the two consumed operands), the
pre-call environment and the pre-call code-cursor; and whenever `RET`
later runs with that frame on top of the dump, it restores exactly
those three registers and pushes the single return value onto the
restored stack. -/
theorem c4_ap_ret_frame_symmetry (names : List String) (body : Code) (cenv : Env)
    (vals : List Lisp) (stk : List Lisp) (env : Env) (code : Code)
    (dump : List DumpOP) (info : Info) (h : vals.length = names.length) :
    (SECD.run_ap ⟨.Closure names body cenv :: .List vals :: stk, env, code, dump⟩ info
       = .ok ⟨[], envExtend cenv (names.zip vals), body, .DumpAP stk env code :: dump⟩)
    ∧ ∀ (v : Lisp) (stk2 : List Lisp) (env2 : Env) (code2 : Code) (info2 : Info)
        (d2 : List DumpOP),
        SECD.run_ret ⟨v :: stk2, env2, code2, .DumpAP stk env code :: d2⟩ info2
          = .ok ⟨v :: stk, env, code, d2⟩ := by
  constructor
  · simp only [SECD.run_ap]
    rw [bindArgs_eq_extend _ _ _ h.symm.le]
  · intro v stk2 env2 code2 info2 d2
    rfl

/-- Witness for C4 at a concrete state. -/
theorem c4_witness :
    (SECD.run_ap ⟨[.Closure ["x"] [] [], .List [.Int 7], .Nil],
                  [("g", .False)], [.mk (2, 2) .ADD], []⟩ (1, 1)
       = .ok ⟨[], envExtend [] (["x"].zip [.Int 7]), [],
              .DumpAP [.Nil] [("g", .False)] [.mk (2, 2) .ADD] :: []⟩)
    ∧ ∀ (v : Lisp) (stk2 : List Lisp) (env2 : Env) (code2 : Code) (info2 : Info)
        (d2 : List DumpOP),
        SECD.run_ret ⟨v :: stk2, env2, code2,
                      .DumpAP [.Nil] [("g", .False)] [.mk (2, 2) .ADD] :: d2⟩ info2
          = .ok ⟨v :: .Nil :: [], [("g", .False)], [.mk (2, 2) .ADD], d2⟩ :=
  c4_ap_ret_frame_symmetry ["x"] [] [] [.Int 7] [.Nil] [("g", .False)]
    [.mk (2, 2) .ADD] [] (1, 1) (by decide)

/-- Claim C5: `ARGS n` on a stack holding at least `n` values pops
exactly `n` of them and pushes one `List` whose elements are in the
reverse of pop order (the original push order); on a stack with fewer
than `n` values it raises a `RuntimeError`. -/
theorem c5_args_packs_in_push_order (n : Nat) (env : Env) (code : Code)
    (dump : List DumpOP) (info : Info) :
    (∀ (front rest : List Lisp), front.length = n →
       SECD.run_args ⟨front ++ rest, env, code, dump⟩ info n
         = .ok ⟨.List front.reverse :: rest, env, code, dump⟩)
    ∧ ∀ (stack : List Lisp), stack.length < n →
        SECD.run_args ⟨stack, env, code, dump⟩ info n
          = .err info ("ARGS: " ++ toString n) := by
  constructor
  · intro front rest hlen
    subst hlen
    unfold SECD.run_args
    rw [popArgs_append]
    simp
  · intro stack hlt
    unfold SECD.run_args
    rw [popArgs_short _ _ _ hlt]

/-- Witness for C5 at a concrete state. -/
theorem c5_witness :
    (SECD.run_args ⟨[Lisp.Int 1, Lisp.Int 2] ++ [Lisp.Nil], [], [], []⟩ (4, 4) 2
       = .ok ⟨.List [Lisp.Int 1, Lisp.Int 2].reverse :: [Lisp.Nil], [], [], []⟩)
    ∧ (SECD.run_args ⟨[Lisp.Nil], [], [], []⟩ (4, 4) 2
       = .err (4, 4) ("ARGS: " ++ toString 2)) :=
  ⟨(c5_args_packs_in_push_order 2 [] [] [] (4, 4)).1 [Lisp.Int 1, Lisp.Int 2]
     [Lisp.Nil] rfl,
   (c5_args_packs_in_push_order 2 [] [] [] (4, 4)).2 [Lisp.Nil] (by decide)⟩

/-- Claim C6: with integers `a` (popped first) and `b` (popped second)
on top, `ADD` pushes the `i32` sum `b + a` and `SUB` the `i32`
difference `b - a` — the second-popped value is the left operand —
computed fixed-width (`wrap32`): whenever the result is representable
in `i32` (where Rust's debug and release profiles agree) the pushed
value is exactly `Int (b + a)` / `Int (b - a)`; a non-integer in
either position raises a `RuntimeError`. -/
theorem c6_add_sub_operand_order (a b : Int) (rest : List Lisp) (env : Env)
    (code : Code) (dump : List DumpOP) (info : Info) :
    (SECD.run_add ⟨.Int a :: .Int b :: rest, env, code, dump⟩ info
       = .ok ⟨.Int (wrap32 (b + a)) :: rest, env, code, dump⟩)
    ∧ (isI32 (b + a) →
        SECD.run_add ⟨.Int a :: .Int b :: rest, env, code, dump⟩ info
          = .ok ⟨.Int (b + a) :: rest, env, code, dump⟩)
    ∧ (SECD.run_sub ⟨.Int a :: .Int b :: rest, env, code, dump⟩ info
       = .ok ⟨.Int (wrap32 (b - a)) :: rest, env, code, dump⟩)
    ∧ (isI32 (b - a) →
        SECD.run_sub ⟨.Int a :: .Int b :: rest, env, code, dump⟩ info
          = .ok ⟨.Int (b - a) :: rest, env, code, dump⟩)
    ∧ (∀ (v : Lisp) (st : List Lisp), (∀ k : Int, v ≠ .Int k) →
        SECD.run_add ⟨v :: st, env, code, dump⟩ info = .err info ("ADD: expected int"))
    ∧ (∀ (w : Lisp) (st : List Lisp), (∀ k : Int, w ≠ .Int k) →
        SECD.run_add ⟨.Int a :: w :: st, env, code, dump⟩ info
          = .err info ("ADD: expected int"))
    ∧ (∀ (v : Lisp) (st : List Lisp), (∀ k : Int, v ≠ .Int k) →
        SECD.run_sub ⟨v :: st, env, code, dump⟩ info = .err info ("SUB: expected int"))
    ∧ (∀ (w : Lisp) (st : List Lisp), (∀ k : Int, w ≠ .Int k) →
        SECD.run_sub ⟨.Int a :: w :: st, env, code, dump⟩ info
          = .err info ("SUB: expected int")) := by
  refine ⟨rfl, ?_, rfl, ?_, ?_, ?_, ?_, ?_⟩
  · intro h
    rw [← wrap32_eq_self _ h]
    rfl
  · intro h
    rw [← wrap32_eq_self _ h]
    rfl
  all_goals
    (intro v st hv
     cases v <;> first | rfl | exact absurd rfl (hv _))

/-- Witness for C6 at concrete operands: `10 + 2` and `10 - 2` are
representable, so the exact-result conjuncts apply. -/
theorem c6_witness :
    (SECD.run_add ⟨[.Int 2, .Int 10], [], [], []⟩ (5, 5) = .ok ⟨[.Int 12], [], [], []⟩)
    ∧ (SECD.run_sub ⟨[.Int 2, .Int 10], [], [], []⟩ (5, 5) = .ok ⟨[.Int 8], [], [], []⟩)
    ∧ (SECD.run_add ⟨[.Nil, .Int 1], [], [], []⟩ (5, 5) = .err (5, 5) ("ADD: expected int"))
    ∧ (SECD.run_sub ⟨[.Int 1, .True], [], [], []⟩ (5, 5)
         = .err (5, 5) ("SUB: expected int")) :=
  ⟨(c6_add_sub_operand_order 2 10 [] [] [] [] (5, 5)).2.1 (by decide),
   (c6_add_sub_operand_order 2 10 [] [] [] [] (5, 5)).2.2.2.1 (by decide),
   (c6_add_sub_operand_order 2 10 [] [] [] [] (5, 5)).2.2.2.2.1 Lisp.Nil [Lisp.Int 1]
     (fun k h => by cases h),
   (c6_add_sub_operand_order 1 0 [] [] [] [] (5, 5)).2.2.2.2.2.2.2 Lisp.True []
     (fun k h => by cases h)⟩

/-- Claim C7 (counterexample): in `(+ (letrec f 1 2) (f 3))` the
application `(f 3)` is *not* enclosed by the letrec — the letrec form is
a completed sibling — yet the call still compiles to `RAP`, because
`compile_letrec` never removes `f` from the letrec-tracking list when
its form ends.  Under the claim's characterisation ("the set contains a
name exactly when an *enclosing* letrec added it"), this application
would have to end with `AP`. -/
theorem c7_counterexample :
    Compiler.compile 20 Compiler.new
      (.mk (.List [.mk (.Atom "+") (1, 1),
                   .mk (.List [.mk (.Atom "letrec") (1, 2), .mk (.Atom "f") (1, 3),
                               .mk (.Int 1) (1, 4), .mk (.Int 2) (1, 5)]) (1, 6),
                   .mk (.List [.mk (.Atom "f") (2, 1), .mk (.Int 3) (2, 2)]) (2, 3)]) (1, 0))
      = .ok [.mk (1, 4) (.LDC (.Int 1)), .mk (1, 2) (.LET "f"), .mk (1, 5) (.LDC (.Int 2)),
             .mk (2, 2) (.LDC (.Int 3)), .mk (2, 1) (.ARGS 1), .mk (2, 1) (.LD "f"),
             .mk (2, 1) .RAP, .mk (1, 1) .ADD] := rfl

/-- Claim C7 (amended): for every application form the compiler emits
the arguments' code left to right, then `ARGS(count)`, then the head's
code, and ends with `RAP` exactly when the head is a bare symbol found
in the letrec-tracking list at emission time (and with `AP` otherwise);
`letrec` adds its id to the list *before* compiling its bound
expression and never removes it when the form ends, while `let` removes
the id before compiling its bound expression.  (The original claim's
"enclosing letrec" is refuted by `c7_counterexample`: ids of completed,
non-enclosing letrec siblings remain in the list.) -/
theorem c7_apply_emission :
    (∀ (fuel : Nat) (c : Compiler) (info : Info) (head : AST) (args : List AST)
       (c' : Compiler),
       Compiler.compile_apply fuel c info head args = .ok c' →
       ∃ (argsC headC : Code) (lastOp : CodeOP),
         c'.code = c.code ++ argsC ++ [.mk info (.ARGS args.length)] ++ headC
                     ++ [.mk info lastOp]
         ∧ (∃ (f' : Nat) (c1 c3 : Compiler), fuel = f' + 1
             ∧ Compiler.compileArgs f' c args = .ok c1
             ∧ c1.code = c.code ++ argsC
             ∧ Compiler.compile_ f' (emit c1 info (.ARGS args.length)) head = .ok c3
             ∧ c3.code = c.code ++ argsC ++ [.mk info (.ARGS args.length)] ++ headC
             ∧ c' = emit c3 info lastOp)
         ∧ (lastOp = .RAP ∨ lastOp = .AP)
         ∧ (lastOp = .RAP ↔ ∃ (id : String) (ainfo : Info),
              head = .mk (.Atom id) ainfo ∧ c'.letrec_id_list.contains id))
    ∧ (∀ (fuel : Nat) (c : Compiler) (info : Info) (id : String) (vinfo : Info)
         (expr body : AST),
       Compiler.compile_letrec (fuel + 1) c info [.mk (.Atom id) vinfo, expr, body]
         = (match Compiler.compile_ fuel
              { c with letrec_id_list := c.letrec_id_list ++ [id] } expr with
            | .error e => .error e
            | .ok c1 => Compiler.compile_ fuel (emit c1 info (.LET id)) body))
    ∧ (∀ (fuel : Nat) (c : Compiler) (info : Info) (id : String) (vinfo : Info)
         (expr body : AST),
       Compiler.compile_let (fuel + 1) c info [.mk (.Atom id) vinfo, expr, body]
         = (match Compiler.compile_ fuel
              { c with letrec_id_list := c.letrec_id_list.filter (· ≠ id) } expr with
            | .error e => .error e
            | .ok c1 => Compiler.compile_ fuel (emit c1 info (.LET id)) body)) := by
  refine ⟨?_, ?_, ?_⟩
  · intro fuel c info head args c' h
    match fuel with
    | 0 => simp [Compiler.compile_apply] at h
    | f' + 1 =>
      simp only [Compiler.compile_apply] at h
      split at h
      · cases h
      · rename_i c1 hc1
        split at h
        · cases h
        · rename_i c3 hc3
          obtain ⟨argsC, hargsC⟩ := (compile_code_extends f').2.2.2.2.2.1 _ _ _ hc1
          obtain ⟨headC, hheadC⟩ := (compile_code_extends f').1 _ _ _ hc3
          refine ⟨argsC, headC, ?_⟩
          split at h
          · rename_i id ainfo
            split at h
            · rename_i hcont
              cases h
              refine ⟨.RAP, ?_, ⟨f', c1, c3, rfl, hc1, hargsC, hc3, ?_, rfl⟩, .inl rfl, ?_⟩
              · simp [emit, hheadC, hargsC]
              · simp [emit, hheadC, hargsC]
              · exact ⟨fun _ => ⟨id, ainfo, rfl, hcont⟩, fun _ => rfl⟩
            · rename_i hcont
              cases h
              refine ⟨.AP, ?_, ⟨f', c1, c3, rfl, hc1, hargsC, hc3, ?_, rfl⟩, .inr rfl, ?_⟩
              · simp [emit, hheadC, hargsC]
              · simp [emit, hheadC, hargsC]
              · constructor
                · intro heq
                  cases heq
                · rintro ⟨id', ainfo', heq, hcont'⟩
                  cases heq
                  exact absurd hcont' hcont
          · rename_i hnotatom
            cases h
            refine ⟨.AP, ?_, ⟨f', c1, c3, rfl, hc1, hargsC, hc3, ?_, rfl⟩, .inr rfl, ?_⟩
            · simp [emit, hheadC, hargsC]
            · simp [emit, hheadC, hargsC]
            · constructor
              · intro heq
                cases heq
              · rintro ⟨id', ainfo', heq, hcont'⟩
                exact absurd rfl (by cases heq; exact (hnotatom id' ainfo'))
  · intro fuel c info id vinfo expr body
    rfl
  · intro fuel c info id vinfo expr body
    rfl

/-- Witness for C7 at the concrete application `(f 3)` compiled with
`f` in the letrec-tracking list: the emitted code decomposes as
`argsC ++ [ARGS 1] ++ headC ++ [RAP]`. -/
theorem c7_witness :
    ∃ (argsC headC : Code) (lastOp : CodeOP),
      (⟨[.mk (0, 2) (.LDC (.Int 3)), .mk (0, 0) (.ARGS 1), .mk (0, 1) (.LD "f"),
         .mk (0, 0) .RAP], ["f"]⟩ : Compiler).code
        = ([] : Code) ++ argsC ++ [.mk (0, 0) (.ARGS 1)] ++ headC ++ [.mk (0, 0) lastOp]
      ∧ (∃ (f' : Nat) (c1 c3 : Compiler), 3 = f' + 1
          ∧ Compiler.compileArgs f' ⟨[], ["f"]⟩ [.mk (.Int 3) (0, 2)] = .ok c1
          ∧ c1.code = ([] : Code) ++ argsC
          ∧ Compiler.compile_ f' (emit c1 (0, 0) (.ARGS 1)) (.mk (.Atom "f") (0, 1)) = .ok c3
          ∧ c3.code = ([] : Code) ++ argsC ++ [.mk (0, 0) (.ARGS 1)] ++ headC
          ∧ (⟨[.mk (0, 2) (.LDC (.Int 3)), .mk (0, 0) (.ARGS 1), .mk (0, 1) (.LD "f"),
               .mk (0, 0) .RAP], ["f"]⟩ : Compiler) = emit c3 (0, 0) lastOp)
      ∧ (lastOp = .RAP ∨ lastOp = .AP)
      ∧ (lastOp = .RAP ↔ ∃ (id : String) (ainfo : Info),
           (AST.mk (.Atom "f") (0, 1)) = .mk (.Atom id) ainfo
           ∧ (⟨[.mk (0, 2) (.LDC (.Int 3)), .mk (0, 0) (.ARGS 1), .mk (0, 1) (.LD "f"),
                .mk (0, 0) .RAP], ["f"]⟩ : Compiler).letrec_id_list.contains id) := by
  exact c7_apply_emission.1 3 ⟨[], ["f"]⟩ (0, 0) (.mk (.Atom "f") (0, 1))
    [.mk (.Int 3) (0, 2)] _ (by rfl)

/-- Claim C8: `SEL` pops the condition; on `True` it enters the then
branch and on `False` the else branch, in both cases with the current
code-cursor saved as a `DumpSelect` frame; any non-boolean top raises
the typed error "SEL: expected bool" and is never coerced. -/
theorem c8_sel_branches_and_type_error (rest : List Lisp) (env : Env) (code : Code)
    (dump : List DumpOP) (info : Info) (t f : Code) :
    (SECD.run_sel ⟨.True :: rest, env, code, dump⟩ info t f
       = .ok ⟨rest, env, t, .DumpSEL code :: dump⟩)
    ∧ (SECD.run_sel ⟨.False :: rest, env, code, dump⟩ info t f
       = .ok ⟨rest, env, f, .DumpSEL code :: dump⟩)
    ∧ ∀ (v : Lisp), v ≠ .True → v ≠ .False →
        SECD.run_sel ⟨v :: rest, env, code, dump⟩ info t f
          = .err info ("SEL: expected bool") := by
  refine ⟨rfl, rfl, ?_⟩
  intro v h1 h2
  cases v <;> first | rfl | exact absurd rfl h1 | exact absurd rfl h2

/-- Witness for C8 at a concrete state. -/
theorem c8_witness :
    (SECD.run_sel ⟨[.True], [], [.mk (1, 1) .ADD], []⟩ (2, 2) [.mk (3, 3) .JOIN] []
       = .ok ⟨[], [], [.mk (3, 3) .JOIN], .DumpSEL [.mk (1, 1) .ADD] :: []⟩)
    ∧ (SECD.run_sel ⟨[.Int 0], [], [.mk (1, 1) .ADD], []⟩ (2, 2) [.mk (3, 3) .JOIN] []
       = .err (2, 2) ("SEL: expected bool")) :=
  ⟨(c8_sel_branches_and_type_error [] [] [.mk (1, 1) .ADD] [] (2, 2)
      [.mk (3, 3) .JOIN] []).1,
   (c8_sel_branches_and_type_error [] [] [.mk (1, 1) .ADD] [] (2, 2)
      [.mk (3, 3) .JOIN] []).2.2 (.Int 0) (by intro h; cases h) (by intro h; cases h)⟩

/-- Claim C9: applying a `k`-parameter closure (via `AP` or `RAP`) to a
`List` with more than `k` values succeeds with no error; only the first
`k` values are bound positionally (`names.zip (vals.take k)`) and the
extra values are silently discarded. -/
theorem c9_extra_args_discarded (names : List String) (body : Code) (cenv : Env)
    (vals : List Lisp) (stk : List Lisp) (env : Env) (code : Code)
    (dump : List DumpOP) (info : Info) (h : names.length < vals.length) :
    (SECD.run_ap ⟨.Closure names body cenv :: .List vals :: stk, env, code, dump⟩ info
       = .ok ⟨[], envExtend cenv (names.zip (vals.take names.length)), body,
              .DumpAP stk env code :: dump⟩)
    ∧ (SECD.run_rap ⟨.Closure names body cenv :: .List vals :: stk, env, code, dump⟩ info
       = .ok ⟨[], envExtend env (envExtend cenv (names.zip (vals.take names.length))),
              body, .DumpAP stk env code :: dump⟩) := by
  constructor
  · simp only [SECD.run_ap]
    rw [bindArgs_eq_extend _ _ _ h.le, zip_take_self]
  · simp only [SECD.run_rap]
    rw [bindArgs_eq_extend _ _ _ h.le, zip_take_self]

/-- Witness for C9: one parameter, two supplied values; the second
value is dropped. -/
theorem c9_witness :
    (SECD.run_ap ⟨[.Closure ["x"] [] [], .List [.Int 1, .Int 2]], [], [], []⟩ (6, 6)
       = .ok ⟨[], envExtend [] (["x"].zip ([.Int 1, .Int 2].take 1)), [],
              .DumpAP [] [] [] :: []⟩)
    ∧ (SECD.run_rap ⟨[.Closure ["x"] [] [], .List [.Int 1, .Int 2]], [], [], []⟩ (6, 6)
       = .ok ⟨[], envExtend [] (envExtend [] (["x"].zip ([.Int 1, .Int 2].take 1))), [],
              .DumpAP [] [] [] :: []⟩) :=
  c9_extra_args_discarded ["x"] [] [] [.Int 1, .Int 2] [] [] [] [] (6, 6) (by decide)

/-- Claim C10: every successful execution of any opcode other than
`LET`, `AP`, `RAP` and `RET` — that is, of `LD`, `LDC`, `LDF`, `ARGS`,
`PUTS`, `SEL`, `JOIN`, `EQ`, `ADD`, `SUB`, `CONS`, `CAR` or `CDR` —
leaves the environment map exactly unchanged. -/
theorem c10_env_untouched_by_non_binding_ops :
    (∀ (s : SECD) (info : Info) (id : String) (s' : SECD),
       SECD.run_ld s info id = .ok s' → s'.env = s.env)
    ∧ (∀ (s : SECD) (info : Info) (v : Lisp) (s' : SECD),
       SECD.run_ldc s info v = .ok s' → s'.env = s.env)
    ∧ (∀ (s : SECD) (info : Info) (names : List String) (code : Code) (s' : SECD),
       SECD.run_ldf s info names code = .ok s' → s'.env = s.env)
    ∧ (∀ (s : SECD) (info : Info) (n : Nat) (s' : SECD),
       SECD.run_args s info n = .ok s' → s'.env = s.env)
    ∧ (∀ (s : SECD) (info : Info) (s' : SECD),
       SECD.run_puts s info = .ok s' → s'.env = s.env)
    ∧ (∀ (s : SECD) (info : Info) (t f : Code) (s' : SECD),
       SECD.run_sel s info t f = .ok s' → s'.env = s.env)
    ∧ (∀ (s : SECD) (info : Info) (s' : SECD),
       SECD.run_join s info = .ok s' → s'.env = s.env)
    ∧ (∀ (s : SECD) (info : Info) (s' : SECD),
       SECD.run_eq s info = .ok s' → s'.env = s.env)
    ∧ (∀ (s : SECD) (info : Info) (s' : SECD),
       SECD.run_add s info = .ok s' → s'.env = s.env)
    ∧ (∀ (s : SECD) (info : Info) (s' : SECD),
       SECD.run_sub s info = .ok s' → s'.env = s.env)
    ∧ (∀ (s : SECD) (info : Info) (s' : SECD),
       SECD.run_cons s info = .ok s' → s'.env = s.env)
    ∧ (∀ (s : SECD) (info : Info) (s' : SECD),
       SECD.run_car s info = .ok s' → s'.env = s.env)
    ∧ (∀ (s : SECD) (info : Info) (s' : SECD),
       SECD.run_cdr s info = .ok s' → s'.env = s.env) := by
  refine ⟨?_, ?_, ?_, ?_, ?_, ?_, ?_, ?_, ?_, ?_, ?_, ?_, ?_⟩
  · intro s info id s' h
    unfold SECD.run_ld at h
    split at h
    all_goals cases h
    all_goals rfl
  · intro s info v s' h
    cases h
    rfl
  · intro s info names code s' h
    cases h
    rfl
  · intro s info n s' h
    unfold SECD.run_args at h
    split at h
    all_goals cases h
    all_goals rfl
  · intro s info s' h
    unfold SECD.run_puts at h
    split at h
    all_goals cases h
    all_goals rfl
  · intro s info t f s' h
    unfold SECD.run_sel at h
    repeat' split at h
    all_goals cases h
    all_goals rfl
  · intro s info s' h
    unfold SECD.run_join at h
    split at h
    all_goals cases h
    all_goals rfl
  · intro s info s' h
    unfold SECD.run_eq at h
    repeat' split at h
    all_goals cases h
    all_goals rfl
  · intro s info s' h
    unfold SECD.run_add at h
    repeat' split at h
    all_goals cases h
    all_goals rfl
  · intro s info s' h
    unfold SECD.run_sub at h
    repeat' split at h
    all_goals cases h
    all_goals rfl
  · intro s info s' h
    unfold SECD.run_cons at h
    repeat' split at h
    all_goals cases h
    all_goals rfl
  · intro s info s' h
    unfold SECD.run_car at h
    repeat' split at h
    all_goals cases h
    all_goals rfl
  · intro s info s' h
    unfold SECD.run_cdr at h
    repeat' split at h
    all_goals cases h
    all_goals rfl

/-- Witness for C10: each of the thirteen opcodes executed successfully
at a concrete state preserves the concrete environment `[("x", Nil)]`. -/
theorem c10_witness :
    ((⟨[.Nil, .Nil], [("x", .Nil)], [], []⟩ : SECD).env = [("x", .Nil)])
    ∧ ((⟨[.List [], .True], [("x", .Nil)], [], []⟩ : SECD).env = [("x", .Nil)])
    ∧ ((⟨[.Int 3], [("x", .Nil)], [], []⟩ : SECD).env = [("x", .Nil)]) := by
  refine ⟨?_, ?_, ?_⟩
  · exact c10_env_untouched_by_non_binding_ops.1
      ⟨[.Nil], [("x", .Nil)], [], []⟩ (1, 1) "x" _ rfl
  · exact c10_env_untouched_by_non_binding_ops.2.2.2.1
      ⟨[.True], [("x", .Nil)], [], []⟩ (1, 1) 0 _ rfl
  · exact c10_env_untouched_by_non_binding_ops.2.2.2.2.2.2.2.2.1
      ⟨[.Int 1, .Int 2], [("x", .Nil)], [], []⟩ (1, 1) _ rfl

end Secd
